import Mathlib

/-!
Verification of the godoom BSP engine and WAD decoder.

This file gives a shallow embedding of the program's data model and of the
functions the verified properties talk about, translated from the Go source
(`godoom.go` for the BSP engine and geometry generation, `wad.go` for the
archive decoder).  Machine integers are modelled as `Int` with explicit
wrap-around/shift helpers where Go semantics matter; Go slice indexing,
which panics when out of bounds, is modelled by `Option`-returning lookups
(`none` = runtime panic); recursive traversals over untrusted node graphs,
which Go does not guarantee to terminate, take an explicit fuel parameter
(`none` = fuel exhausted / nontermination).  Fixed 8-byte `String8` name
fields are modelled as the Lean `String` they denote after NUL truncation,
since none of the verified properties concern the padding itself.
-/

namespace Godoom

/-! ## Go machine-integer helpers -/

/-- The low 64 bits of an integer, i.e. the two's-complement bit pattern of a
Go `int` (which is 64-bit on the targeted platforms). -/
def uint64ofInt (i : Int) : Nat := (i % (2 ^ 64)).toNat

/-- Go's `&` between an `int` and a small nonnegative mask constant, computed
on the two's-complement bit pattern. -/
def goAndMask (i : Int) (m : Nat) : Nat := Nat.land (uint64ofInt i) m

/-- Go's conversion `uint16(i)` from `int`: the low 16 bits. -/
def uint16ofInt (i : Int) : Nat := (i % 65536).toNat

/-- Go's conversion `int16(i)`: the low 16 bits reinterpreted as a signed
16-bit value.  This is also the value stored when a constant is truncated to
the `int16` fields of the on-disk records. -/
def toInt16 (i : Int) : Int := (i + 32768) % 65536 - 32768

/-- Go's conversion `int32(i)`: the low 32 bits reinterpreted as signed. -/
def toInt32 (i : Int) : Int := (i + 2 ^ 31) % 2 ^ 32 - 2 ^ 31

/-- Go slice indexing `xs[i]` with an integer index: panics (modelled as
`none`) when `i` is negative or not below the length. -/
def idxGet {α : Type} (xs : List α) (i : Int) : Option α :=
  if 0 ≤ i then xs[i.toNat]? else none

/-- Go slice element assignment `xs[i] = v`: panics (modelled as `none`)
when `i` is out of bounds. -/
def listSet (xs : List Nat) (i : Nat) (v : Nat) : Option (List Nat) :=
  if i < xs.length then some (xs.set i v) else none

/-- Go map lookup on a map built by successive insertions (modelled as the
insertion list, where a later insertion of the same key overwrites). -/
def goMapGet {α : Type} : List (String × α) → String → Option α
  | [], _ => none
  | (k', v) :: rest, k =>
    match goMapGet rest k with
    | some v' => some v'
    | none => if k' = k then some v else none

/-! ## Data model (structs of `wad.go`, `int16` fields carried as `Int`) -/

structure Point where
  x : Int
  y : Int
  deriving DecidableEq, Repr

structure BBox where
  top : Int
  bottom : Int
  left : Int
  right : Int
  deriving DecidableEq, Repr

structure Node where
  x : Int
  y : Int
  dx : Int
  dy : Int
  bbox0 : BBox
  bbox1 : BBox
  child0 : Int
  child1 : Int
  deriving DecidableEq, Repr

structure Vertex where
  xCoord : Int
  yCoord : Int
  deriving DecidableEq, Repr

structure Seg where
  vertexStart : Int
  vertexEnd : Int
  bams : Int
  lineNum : Int
  segside : Int
  segoffset : Int
  deriving DecidableEq, Repr

structure SSector where
  numsegs : Int
  startSeg : Int
  deriving DecidableEq, Repr

structure Linedef where
  vertexStart : Int
  vertexEnd : Int
  flags : Int
  function : Int
  tag : Int
  sidedefRight : Int
  sidedefLeft : Int
  deriving DecidableEq, Repr

structure Sidedef where
  xOffset : Int
  yOffset : Int
  upperTexture : String
  lowerTexture : String
  middleTexture : String
  sectorRef : Int
  deriving DecidableEq, Repr

structure Sector where
  floorHeight : Int
  ceilingHeight : Int
  floorpic : String
  ceilingpic : String
  lightlevel : Int
  specialSector : Int
  tag : Int
  deriving DecidableEq, Repr

structure Level where
  linedefs : List Linedef
  sidedefs : List Sidedef
  vertexes : List Vertex
  segs : List Seg
  ssectors : List SSector
  nodes : List Node
  sectors : List Sector
  deriving Repr

/-- `Node.Child[i]` of the Go source, where `i` is the side computed by
`pointOnSide` (always 0 or 1). -/
def childAt (n : Node) (i : Nat) : Int :=
  if i = 0 then n.child0 else n.child1

/-- `Node.BBox[i]` of the Go source. -/
def bboxAt (n : Node) (i : Nat) : BBox :=
  if i = 0 then n.bbox0 else n.bbox1

/-! ## BSP engine (`godoom.go`) -/

/-- `subsectorBit = int(0x8000)`. -/
def subsectorBit : Nat := 0x8000

/-- `pointOnSide` of `godoom.go`: the side-of-splitter test.  `node.dx` and
`node.dy` hold `int16` values; Go's `node.DX>>16` is an arithmetic right
shift of that `int16`, which `>>> 16` on the carried `Int` reproduces. -/
def pointOnSide (point : Point) (node : Node) : Nat :=
  let dx := point.x - node.x
  let dy := point.y - node.y
  let left := (node.dy >>> 16) * dx
  let right := (node.dx >>> 16) * dy
  if right < left then 0 else 1

/-- `intersects` of `godoom.go`: bounding-box containment, strict on all
four edges. -/
def intersects (point : Point) (bbox : BBox) : Bool :=
  point.x > bbox.left && point.x < bbox.right &&
    point.y > bbox.bottom && point.y < bbox.top

/-- `segSidedef` of `godoom.go`.  The outer `Option` models the Go slice
index panic (`none` = panic); the inner `Option` is the `*Sidedef` result
(`none` = the function's `nil` return). -/
def segSidedef (level : Level) (seg : Seg) (linedef : Linedef) :
    Option (Option Sidedef) :=
  if seg.segside = 0 then
    (idxGet level.sidedefs linedef.sidedefRight).map some
  else
    if linedef.sidedefLeft = -1 then some none
    else (idxGet level.sidedefs linedef.sidedefLeft).map some

/-- `segOppositeSidedef` of `godoom.go`, the mirror of `segSidedef`. -/
def segOppositeSidedef (level : Level) (seg : Seg) (linedef : Linedef) :
    Option (Option Sidedef) :=
  if seg.segside = 0 then
    if linedef.sidedefLeft = -1 then some none
    else (idxGet level.sidedefs linedef.sidedefLeft).map some
  else
    (idxGet level.sidedefs linedef.sidedefRight).map some

/-- `int(uint16(idx) & ^uint16(subsectorBit))`: the subsector index encoded
in a leaf child slot (`^uint16(0x8000) = 0x7FFF`). -/
def leafMask (idx : Int) : Nat := Nat.land (uint16ofInt idx) 0x7FFF

/-- `traverseBsp` of `godoom.go`, with the visit action reified as the list
of subsector ids passed to `action`, in invocation order.  `filter` is the
`bspFilter` argument; `fuel` bounds the recursion (the Go original recurses
on an untrusted node graph). -/
def traverseBsp (level : Level) (point : Point) (idx : Int)
    (filter : Level → Int → Bool) (fuel : Nat) : Option (List Nat) :=
  match fuel with
  | 0 => none
  | fuel + 1 =>
    if goAndMask idx subsectorBit = subsectorBit then
      if idx = -1 then some [0]
      else some [leafMask idx]
    else
      match idxGet level.nodes idx with
      | none => none
      | some node =>
        let side := pointOnSide point node
        let sideIdx := childAt node side
        match traverseBsp level point sideIdx filter fuel with
        | none => none
        | some visits =>
          let oppositeSide := side ^^^ 1
          let oppositeSideIdx := childAt node oppositeSide
          if filter level oppositeSideIdx then
            match traverseBsp level point oppositeSideIdx filter fuel with
            | none => none
            | some visits2 => some (visits ++ visits2)
          else some visits

/-- The seg loop inside `findSector`'s leaf case.  `segIdx` and `bound` are
`int16` values; the loop increment wraps at the `int16` boundary exactly as
Go's `segIdx++` does on the `int16` loop variable. -/
def findSectorSegs (level : Level) (segIdx bound : Int) (fuel : Nat) :
    Option (Option Sector) :=
  match fuel with
  | 0 => none
  | fuel + 1 =>
    if segIdx < bound then
      match idxGet level.segs segIdx with
      | none => none
      | some seg =>
        match idxGet level.linedefs seg.lineNum with
        | none => none
        | some linedef =>
          match segSidedef level seg linedef with
          | none => none
          | some (some sidedef) =>
            (idxGet level.sectors sidedef.sectorRef).map some
          | some none =>
            match segOppositeSidedef level seg linedef with
            | none => none
            | some (some oppositeSidedef) =>
              (idxGet level.sectors oppositeSidedef.sectorRef).map some
            | some none =>
              findSectorSegs level (toInt16 (segIdx + 1)) bound fuel
    else some none

/-- `findSector` of `godoom.go`.  The outer `Option` models panics and fuel
exhaustion; the inner `Option` is the `*Sector` result (`none` = the `nil`
return when neither bounding box contains the point).  Note the source
falls through to the node lookup with the masked index when the leaf's seg
loop finishes without returning. -/
def findSector (level : Level) (point : Point) (idx : Int) (fuel : Nat) :
    Option (Option Sector) :=
  match fuel with
  | 0 => none
  | fuel + 1 =>
    let descend : Int → Option (Option Sector) := fun idx' =>
      match idxGet level.nodes idx' with
      | none => none
      | some node =>
        if intersects point node.bbox0 then
          findSector level point node.child0 fuel
        else if intersects point node.bbox1 then
          findSector level point node.child1 fuel
        else some none
    if goAndMask idx subsectorBit = subsectorBit then
      match idxGet level.ssectors (leafMask idx : Nat) with
      | none => none
      | some ssector =>
        match findSectorSegs level ssector.startSeg
            (toInt16 (ssector.startSeg + ssector.numsegs)) fuel with
        | none => none
        | some (some sector) => some (some sector)
        | some none => descend (leafMask idx)
    else descend idx

/-! ## Geometry generation (`genLinedef` of `godoom.go`)

`NewMesh` uploads the vertex data to the GPU; what it retains of its inputs
is the texture name, the light level (stored scaled by 1/255 for the
shader; we keep the raw `int16` value) and the vertex list, which is what
`Mesh` carries here.  The `U`/`V` texture coordinates are `float32` values
that are always exactly 0.0 or 1.0, carried as `Rat`. -/

structure Point3 where
  x : Int
  y : Int
  z : Int
  u : Rat
  v : Rat
  deriving DecidableEq, Repr

structure Mesh where
  texture : String
  lightLevel : Int
  vertices : List Point3
  deriving DecidableEq, Repr

/-- The upper-texture branch of `genLinedef`: when the upper texture name
is present and an opposite sidedef exists, the quad from the opposite
sector's ceiling to the near sector's ceiling.  `none` models the panic of
the opposite-sector index.  `Point3.X` is an `int16`, so the negation of
the endpoint X wraps: `toInt16` reproduces Go's `-start.XCoord`. -/
def upperMeshes (level : Level) (sidedef : Sidedef) (sector : Sector)
    (oppositeSidedef : Option Sidedef) (vstart vend : Vertex) :
    Option (List Mesh) :=
  if sidedef.upperTexture ≠ "-" then
    match oppositeSidedef with
    | none => some []
    | some opp =>
      match idxGet level.sectors opp.sectorRef with
      | none => none
      | some oppositeSector =>
        some [⟨sidedef.upperTexture, sector.lightlevel,
          [⟨toInt16 (-vstart.xCoord), sector.ceilingHeight, vstart.yCoord, 0, 1⟩,
           ⟨toInt16 (-vstart.xCoord), oppositeSector.ceilingHeight, vstart.yCoord, 0, 0⟩,
           ⟨toInt16 (-vend.xCoord), oppositeSector.ceilingHeight, vend.yCoord, 1, 0⟩,
           ⟨toInt16 (-vend.xCoord), oppositeSector.ceilingHeight, vend.yCoord, 1, 0⟩,
           ⟨toInt16 (-vend.xCoord), sector.ceilingHeight, vend.yCoord, 1, 1⟩,
           ⟨toInt16 (-vstart.xCoord), sector.ceilingHeight, vstart.yCoord, 0, 1⟩]⟩]
  else some []

/-- The middle-texture branch of `genLinedef`: when the middle texture name
is present, the quad from the near sector's floor to its ceiling, with no
condition on the opposite sidedef.  The negation of the endpoint X is Go's
`int16` negation, which wraps at -32768 (`toInt16`). -/
def middleMeshes (sidedef : Sidedef) (sector : Sector)
    (vstart vend : Vertex) : List Mesh :=
  if sidedef.middleTexture ≠ "-" then
    [⟨sidedef.middleTexture, sector.lightlevel,
      [⟨toInt16 (-vstart.xCoord), sector.floorHeight, vstart.yCoord, 0, 1⟩,
       ⟨toInt16 (-vstart.xCoord), sector.ceilingHeight, vstart.yCoord, 0, 0⟩,
       ⟨toInt16 (-vend.xCoord), sector.ceilingHeight, vend.yCoord, 1, 0⟩,
       ⟨toInt16 (-vend.xCoord), sector.ceilingHeight, vend.yCoord, 1, 0⟩,
       ⟨toInt16 (-vend.xCoord), sector.floorHeight, vend.yCoord, 1, 1⟩,
       ⟨toInt16 (-vstart.xCoord), sector.floorHeight, vstart.yCoord, 0, 1⟩]⟩]
  else []

/-- The lower-texture branch of `genLinedef`: when the lower texture name
is present and an opposite sidedef exists, the quad from the near sector's
floor to the opposite sector's floor, with the same wrapping `int16`
negation of the endpoint X. -/
def lowerMeshes (level : Level) (sidedef : Sidedef) (sector : Sector)
    (oppositeSidedef : Option Sidedef) (vstart vend : Vertex) :
    Option (List Mesh) :=
  if sidedef.lowerTexture ≠ "-" then
    match oppositeSidedef with
    | none => some []
    | some opp =>
      match idxGet level.sectors opp.sectorRef with
      | none => none
      | some oppositeSector =>
        some [⟨sidedef.lowerTexture, sector.lightlevel,
          [⟨toInt16 (-vstart.xCoord), sector.floorHeight, vstart.yCoord, 0, 1⟩,
           ⟨toInt16 (-vstart.xCoord), oppositeSector.floorHeight, vstart.yCoord, 0, 0⟩,
           ⟨toInt16 (-vend.xCoord), oppositeSector.floorHeight, vend.yCoord, 1, 0⟩,
           ⟨toInt16 (-vend.xCoord), oppositeSector.floorHeight, vend.yCoord, 1, 0⟩,
           ⟨toInt16 (-vend.xCoord), sector.floorHeight, vend.yCoord, 1, 1⟩,
           ⟨toInt16 (-vstart.xCoord), sector.floorHeight, vstart.yCoord, 0, 1⟩]⟩]
  else some []

/-- `genLinedef` of `godoom.go`, reified as the list of meshes it appends to
`scene.meshes[ssectorId]`, in append order (upper, middle, lower).  The
floor branch and the texture/flat cache calls are side effects on other
state and contribute no meshes; their error results are discarded by the
source.  `none` models a Go panic on an out-of-bounds slice index. -/
def genLinedef (level : Level) (seg : Seg) (linedefId : Int) :
    Option (List Mesh) :=
  match idxGet level.linedefs linedefId with
  | none => none
  | some linedef =>
    match segSidedef level seg linedef with
    | none => none
    | some none => some []
    | some (some sidedef) =>
      match idxGet level.sectors sidedef.sectorRef with
      | none => none
      | some sector =>
        match segOppositeSidedef level seg linedef with
        | none => none
        | some oppositeSidedef =>
          match idxGet level.vertexes linedef.vertexStart,
              idxGet level.vertexes linedef.vertexEnd with
          | some vstart, some vend =>
            match upperMeshes level sidedef sector oppositeSidedef vstart
                vend with
            | none => none
            | some um =>
              match lowerMeshes level sidedef sector oppositeSidedef vstart
                  vend with
              | none => none
              | some lm =>
                some (um ++ middleMeshes sidedef sector vstart vend ++ lm)
          | _, _ => none

/-! ## WAD archive model (`wad.go`) -/

structure TextureHeader where
  texName : String
  masked : Int
  width : Int
  height : Int
  columnDirectory : Int
  numPatches : Int
  deriving DecidableEq, Repr

structure Patch where
  xOffset : Int
  yOffset : Int
  pNameNumber : Int
  stepdir : Int
  colorMap : Int
  deriving DecidableEq, Repr

/-- `Texture` of `wad.go`.  Go's zero value — what a map lookup of an absent
name yields — has a nil `Header` and nil patch slice. -/
structure Texture where
  header : Option TextureHeader
  patches : List Patch
  deriving DecidableEq, Repr

structure Image where
  width : Int
  height : Int
  pixels : List Nat
  deriving DecidableEq, Repr

structure Flat where
  data : List Nat
  deriving DecidableEq, Repr

structure RGB where
  red : Nat
  green : Nat
  blue : Nat
  deriving DecidableEq, Repr

/-- A pixel of the `image.RGBA` destination canvas. -/
structure RGBA where
  r : Nat
  g : Nat
  b : Nat
  a : Nat
  deriving DecidableEq, Repr

/-- The fields of the `WAD` struct the verified operations read.  `pnames`
carries the patch names after NUL truncation; `playpal0` is the total
256-entry table `Playpal.Palettes[0].Table`. -/
structure WAD where
  pnames : List String
  patches : List (String × Image)
  transparentPaletteIndex : Nat
  playpal0 : Nat → RGB
  textures : List (String × Texture)
  flats : List (String × Flat)

/-- `LoadTexture` of `wad.go`: a Go map lookup whose result is returned with
a `nil` error unconditionally; an absent name yields the zero `Texture`. -/
def LoadTexture (w : WAD) (texname : String) : Texture × Option Unit :=
  ((goMapGet w.textures texname).getD ⟨none, []⟩, none)

/-- `LoadFlat` of `wad.go`: same shape as `LoadTexture`; an absent name
yields the zero `Flat`. -/
def LoadFlat (w : WAD) (flatname : String) : Flat × Option Unit :=
  ((goMapGet w.flats flatname).getD ⟨[]⟩, none)

/-- `LoadImage` of `wad.go`: `w.patches[ToString(w.pnames[pnameNumber])]`.
The `pnames` index panics when out of bounds (`none`); the map lookup of an
absent name yields the zero `Image`. -/
def LoadImage (w : WAD) (pnameNumber : Int) : Option Image :=
  (idxGet w.pnames pnameNumber).map fun name =>
    (goMapGet w.patches name).getD ⟨0, 0, []⟩

/-! ## Composite-texture materialization (`loadTexture` of `godoom.go`)

The destination canvas is an `image.RGBA`, modelled as a total function
from coordinates to pixels; `image.NewRGBA` zero-initializes it and
`RGBA.Set` silently ignores writes outside the rectangle. -/

/-- `rgba.Set(x, y, c)` on a canvas with rectangle `(0,0)-(w,h)`. -/
def rgbaSet (w h : Int) (img : Int × Int → RGBA) (p : Int × Int) (c : RGBA) :
    Int × Int → RGBA :=
  if 0 ≤ p.1 ∧ p.1 < w ∧ 0 ≤ p.2 ∧ p.2 < h then
    fun q => if q = p then c else img q
  else img

/-- The per-pixel color written by `loadTexture`/`loadFlat`: palette RGB
with alpha 0 exactly when the pixel is the transparent sentinel. -/
def pixelColor (w : WAD) (pixel : Nat) : RGBA :=
  let alpha : Nat := if pixel = w.transparentPaletteIndex then 0 else 255
  ⟨(w.playpal0 pixel).red, (w.playpal0 pixel).green, (w.playpal0 pixel).blue,
    alpha⟩

/-- The inner double loop of `loadTexture`: blit one decoded picture onto
the canvas at the patch's offset, row-major, with unconditional `Set`.
Decoded pictures satisfy `pixels.length = width*height`, so the source
fetch is in bounds; it is carried total with a default like Go's in-bounds
read. -/
def blitPatch (w : WAD) (tw th : Int) (dest : Int × Int → RGBA)
    (image : Image) (patch : Patch) : Int × Int → RGBA :=
  (List.range image.height.toNat).foldl (fun d y =>
    (List.range image.width.toNat).foldl (fun d x =>
      let pixel := image.pixels.getD (y * image.width.toNat + x) 0
      rgbaSet tw th d (patch.xOffset + (x : Int), patch.yOffset + (y : Int))
        (pixelColor w pixel)) d) dest

/-- The patch loop of `loadTexture`: resolve each patch's picture with
`LoadImage` and blit it, in list order.  `none` models the panic inside
`LoadImage` (its error result is always `nil` and the source's error check
is dead code). -/
def blitAll (w : WAD) (tw th : Int) (ps : List Patch)
    (dest : Int × Int → RGBA) : Option (Int × Int → RGBA) :=
  match ps with
  | [] => some dest
  | patch :: rest =>
    match LoadImage w patch.pNameNumber with
    | none => none
    | some image => blitAll w tw th rest (blitPatch w tw th dest image patch)

/-- `loadTexture` of `godoom.go`, reified as the composited canvas (the GL
upload is outside the model).  The outer `Option` models panics; the inner
`Option` is `none` for the source's headerless-texture early return. -/
def loadTexture (w : WAD) (texname : String) :
    Option (Option (Int × Int → RGBA)) :=
  let texture := (LoadTexture w texname).1
  match texture.header with
  | none => some none
  | some header =>
    (blitAll w header.width header.height texture.patches
      (fun _ => ⟨0, 0, 0, 0⟩)).map some

/-! ## RLE picture decoding (`readPatchLumps` of `wad.go`) -/

/-- Decode two bytes as a little-endian `int16` (the layout `binary.Read`
uses for the picture header fields). -/
def int16ofBytes (b0 b1 : Nat) : Int := toInt16 (b0 + 256 * b1)

/-- Decode four bytes as a little-endian `int32` (the column offsets). -/
def int32ofBytes (b0 b1 b2 b3 : Nat) : Int :=
  toInt32 (b0 + 256 * b1 + 65536 * b2 + 16777216 * b3)

/-- `lump[offset]` where `offset` is the `int32` cursor of the column
decoder; panics (`none`) out of bounds. -/
def lumpGet (lump : List Nat) (offset : Int) : Option Nat := idxGet lump offset

/-- The prefill double loop of `readPatchLumps`: starting from the
zero-initialized buffer `make([]byte, w*h)`, write the transparent sentinel
at `y*w + x` for every `y < h`, `x < w`.  Every written index is in bounds,
so the write is carried as the (out-of-bounds no-op) `List.set`. -/
def prefill (w h : Nat) (transparent : Nat) : List Nat :=
  (List.range h).foldl (fun px y =>
    (List.range w).foldl (fun px x => px.set (y * w + x) transparent) px)
    (List.replicate (w * h) 0)

/-- The innermost pixel-run loop: copy `n` raw bytes from the lump at
`offset` into the pixel buffer at rows `rowStart+i` of column `col`,
starting at iteration `i`.  Returns the updated buffer and cursor.  Either
index can leave bounds on corrupt data — a Go panic, `none`. -/
def writeRun (lump : List Nat) (w col rowStart : Nat) (i n : Nat)
    (offset : Int) (pixels : List Nat) : Option (List Nat × Int) :=
  match n with
  | 0 => some (pixels, offset)
  | n + 1 =>
    match lumpGet lump offset with
    | none => none
    | some b =>
      match listSet pixels ((rowStart + i) * w + col) b with
      | none => none
      | some pixels' =>
        writeRun lump w col rowStart (i + 1) n (offset + 1) pixels'

/-- The per-column loop of `readPatchLumps`: read a row-start byte; 255
ends the column; otherwise read the pixel count, skip the padding byte,
copy the run, skip the trailing padding byte, repeat.  `fuel` bounds the
loop, which Go does not guarantee to terminate on corrupt data. -/
def decodeColumn (lump : List Nat) (w col : Nat) (offset : Int)
    (pixels : List Nat) (fuel : Nat) : Option (List Nat) :=
  match fuel with
  | 0 => none
  | fuel + 1 =>
    match lumpGet lump offset with
    | none => none
    | some rowStart =>
      if rowStart = 255 then some pixels
      else
        match lumpGet lump (offset + 1) with
        | none => none
        | some numPixels =>
          match writeRun lump w col rowStart 0 numPixels (offset + 3)
              pixels with
          | none => none
          | some (pixels', offset') =>
            decodeColumn lump w col (offset' + 1) pixels' fuel

/-- The `for columnIndex, offset := range offsets` loop. -/
def decodeColumns (lump : List Nat) (w : Nat) (offsets : List Int)
    (col : Nat) (pixels : List Nat) (fuel : Nat) : Option (List Nat) :=
  match offsets with
  | [] => some pixels
  | offset :: rest =>
    match decodeColumn lump w col offset pixels fuel with
    | none => none
    | some pixels' => decodeColumns lump w rest (col + 1) pixels' fuel

/-- The `width` column offsets read by `binary.Read` right after the
8-byte picture header. -/
def readOffsets (lump : List Nat) (count : Nat) : List Int :=
  (List.range count).map fun k =>
    int32ofBytes (lump.getD (8 + 4 * k) 0) (lump.getD (8 + 4 * k + 1) 0)
      (lump.getD (8 + 4 * k + 2) 0) (lump.getD (8 + 4 * k + 3) 0)

/-- Outcome of one iteration of the `readPatchLumps` loop body. -/
inductive PatchResult where
  | panic : PatchResult
  | err : PatchResult
  | skip : PatchResult
  | ok : Image → PatchResult
  deriving DecidableEq

/-- The body of `readPatchLumps` for one patch lump, given the lump's
bytes.  `err` is a returned error (aborting the whole load: a short
`binary.Read`), `skip` the oversized-picture `continue`, `panic` a runtime
panic (negative `make` length, out-of-bounds index, or exhausted fuel). -/
def decodeOnePatch (transparent : Nat) (lump : List Nat) (fuel : Nat) :
    PatchResult :=
  if lump.length < 8 then .err
  else
    let width := int16ofBytes (lump.getD 0 0) (lump.getD 1 0)
    let height := int16ofBytes (lump.getD 2 0) (lump.getD 3 0)
    if width > 4096 ∨ height > 4096 then .skip
    else if width < 0 then .panic
    else if lump.length < 8 + 4 * width.toNat then .err
    else if width * height < 0 then .panic
    else
      let offsets := readOffsets lump width.toNat
      let pixels := prefill width.toNat height.toNat transparent
      match decodeColumns lump width.toNat offsets 0 pixels fuel with
      | none => .panic
      | some px => .ok ⟨width, height, px⟩

/-- The `readPatchLumps` loop over the patch-name table, with each name
paired with the bytes of the lump it resolves to (the seek-and-read of the
file, including its truncation check, is the file-access boundary of the
model).  `acc` is the `patches` map as its insertion list. -/
def readPatchLumps (transparent : Nat) (entries : List (String × List Nat))
    (acc : List (String × Image)) (fuel : Nat) :
    Option (Except Unit (List (String × Image))) :=
  match entries with
  | [] => some (.ok acc)
  | (name, lump) :: rest =>
    match decodeOnePatch transparent lump fuel with
    | .panic => none
    | .err => some (.error ())
    | .skip => readPatchLumps transparent rest acc fuel
    | .ok image => readPatchLumps transparent rest (acc ++ [(name, image)]) fuel

/-! ## General facts about the indexing model -/

theorem idxGet_some_iff {α : Type} (xs : List α) (i : Int) :
    (∃ a, idxGet xs i = some a) ↔ 0 ≤ i ∧ i.toNat < xs.length := by
  unfold idxGet
  by_cases h : 0 ≤ i
  · simp only [if_pos h]
    constructor
    · rintro ⟨a, ha⟩
      exact ⟨h, (List.getElem?_eq_some.mp ha).1⟩
    · rintro ⟨-, hlen⟩
      exact ⟨_, List.getElem?_eq_getElem hlen⟩
  · simp [h]

/-! ## C1: the side-of-splitter test -/

/-- C1 (counterexample to the claim as stated): the claim's synthetic node
stores direction dx = 0x00010000, dy = 0, and asserts that a point with
dy < 0 classifies as front (0).  `Node.DX` is an `int16`, so storing
0x00010000 truncates it to 0, and `pointOnSide` classifies the point
(0, -5) — whose dy = -5 < 0 — as back (1), not front. -/
theorem c1_pointOnSide_counterexample :
    toInt16 0x00010000 = 0 ∧
    (let n : Node := ⟨0, 0, toInt16 0x00010000, 0, ⟨0, 0, 0, 0⟩, ⟨0, 0, 0, 0⟩, 0, 0⟩
     let p : Point := ⟨0, -5⟩
     p.y - n.y < 0 ∧ ¬ pointOnSide p n = 0) := by
  decide

/-- C1 (amended): `pointOnSide` computes dx = p.x - n.x and dy = p.y - n.y
on the stored values and returns front (0) exactly when
dy * (n.dx >> 16) < (n.dy >> 16) * dx, with `>> 16` the arithmetic right
shift of the stored `int16` direction deltas; since no `int16` can store
0x00010000, a node with that direction constant holds dx = 0 (its `int16`
truncation), and with dy = 0 every point — dy > 0 and dy < 0 alike —
classifies as back (1). -/
theorem c1_pointOnSide_amended (p : Point) (n : Node) :
    (pointOnSide p n = 0 ↔
      (p.y - n.y) * (n.dx >>> 16) < (n.dy >>> 16) * (p.x - n.x)) ∧
    (n.dx = toInt16 0x00010000 → n.dy = 0 → pointOnSide p n = 1) := by
  have h0 : (0 : Int) >>> 16 = 0 := by decide
  constructor
  · rw [mul_comm (p.y - n.y) (n.dx >>> 16)]
    by_cases hc : (n.dx >>> 16) * (p.y - n.y) < (n.dy >>> 16) * (p.x - n.x)
    · simp [pointOnSide, hc]
    · simp [pointOnSide, hc]
  · intro h1 h2
    have hdx : n.dx = 0 := by rw [h1]; decide
    simp [pointOnSide, hdx, h2, h0]

/-- C1 witness: the amended theorem evaluated at the node with dy = -1 and
the point (-3, 0), whose shifted comparison is satisfied, and at the
truncated synthetic node. -/
theorem c1_pointOnSide_amended_witness :
    (pointOnSide ⟨-3, 0⟩ ⟨0, 0, 0, -1, ⟨0, 0, 0, 0⟩, ⟨0, 0, 0, 0⟩, 0, 0⟩ = 0 ↔
      ((0 : Int) - 0) * ((0 : Int) >>> 16) <
        ((-1 : Int) >>> 16) * ((-3 : Int) - 0)) ∧
    pointOnSide ⟨0, 7⟩ ⟨0, 0, toInt16 0x00010000, 0, ⟨0, 0, 0, 0⟩, ⟨0, 0, 0, 0⟩, 0, 0⟩ = 1 :=
  ⟨(c1_pointOnSide_amended ⟨-3, 0⟩ ⟨0, 0, 0, -1, ⟨0, 0, 0, 0⟩, ⟨0, 0, 0, 0⟩, 0, 0⟩).1,
   (c1_pointOnSide_amended ⟨0, 7⟩ _).2 rfl rfl⟩

/-! ## C2: leaf handling in the BSP traversal -/

/-- C2: when the child-slot value reaching `traverseBsp` has the high bit
0x8000 set it is a leaf: the visit action fires exactly once, on the slot
value with the high bit cleared — except the sentinel -1, which visits
subsector 0 — and no node recursion happens (the result is the same for
every level and filter, and never consults `level.nodes`). -/
theorem c2_traverseBsp_leaf (level : Level) (point : Point) (idx : Int)
    (filter : Level → Int → Bool) (fuel : Nat)
    (h : goAndMask idx subsectorBit = subsectorBit) :
    traverseBsp level point idx filter (fuel + 1) =
      some [if idx = -1 then 0 else leafMask idx] := by
  unfold traverseBsp
  by_cases h1 : idx = -1
  · subst h1
    simp [h]
  · simp [h, h1]

/-- C2 witness: the sentinel -1 visits subsector 0, and the leaf slot
0x8005 (sign-extended from its `int16` storage) visits subsector 5, in a
level with no nodes at all. -/
theorem c2_traverseBsp_leaf_witness :
    traverseBsp ⟨[], [], [], [], [], [], []⟩ ⟨0, 0⟩ (-1) (fun _ _ => true) 1 =
      some [0] ∧
    traverseBsp ⟨[], [], [], [], [], [], []⟩ ⟨0, 0⟩ (toInt16 0x8005)
      (fun _ _ => true) 1 = some [5] := by
  constructor
  · have := c2_traverseBsp_leaf ⟨[], [], [], [], [], [], []⟩ ⟨0, 0⟩ (-1)
      (fun _ _ => true) 0 (by decide)
    simpa using this
  · have := c2_traverseBsp_leaf ⟨[], [], [], [], [], [], []⟩ ⟨0, 0⟩
      (toInt16 0x8005) (fun _ _ => true) 0 (by decide)
    simpa using this

/-! ## C5: lookups of absent texture/flat names -/

/-- A 5-entry synthetic texture directory used to refute the claim that an
absent-name lookup fails. -/
def wadFive : WAD :=
  { pnames := []
    patches := []
    transparentPaletteIndex := 255
    playpal0 := fun _ => ⟨0, 0, 0⟩
    textures := [("AASTINKY", ⟨none, []⟩), ("BADWALL", ⟨none, []⟩),
                 ("BLODGR1", ⟨none, []⟩), ("BLODRIP1", ⟨none, []⟩),
                 ("BROVINE", ⟨none, []⟩)]
    flats := [("FLOOR0_1", ⟨[]⟩), ("FLOOR0_3", ⟨[]⟩), ("FLOOR0_6", ⟨[]⟩),
              ("FLOOR1_1", ⟨[]⟩), ("FLOOR1_7", ⟨[]⟩)] }

/-- C5 (counterexample to the claim as stated): looking up a name absent
from a 5-entry texture directory does not fail with any error — there is
no `NotFoundError` in the code — it succeeds, returning the zero `Texture`
(nil header, no patches) and a nil error. -/
theorem c5_load_absent_counterexample :
    goMapGet wadFive.textures "FOO" = none ∧
    goMapGet wadFive.flats "FOO" = none ∧
    LoadTexture wadFive "FOO" = (⟨none, []⟩, none) ∧
    LoadFlat wadFive "FOO" = (⟨[]⟩, none) :=
  ⟨rfl, rfl, rfl, rfl⟩

/-- C5 (amended): for every archive and every name absent from the texture
(resp. flat) cache, `LoadTexture` (resp. `LoadFlat`) succeeds, returning
the zero value — a `Texture` with nil header / a `Flat` with nil data —
and a nil error; it neither fails, nor panics, nor reads out of bounds. -/
theorem c5_load_absent_amended (w : WAD) (name : String) :
    (goMapGet w.textures name = none →
      LoadTexture w name = (⟨none, []⟩, none)) ∧
    (goMapGet w.flats name = none →
      LoadFlat w name = (⟨[]⟩, none)) := by
  constructor
  · intro h
    simp [LoadTexture, h]
  · intro h
    simp [LoadFlat, h]

/-- C5 witness: the amended theorem evaluated on the 5-entry directory. -/
theorem c5_load_absent_amended_witness :
    LoadTexture wadFive "FOO" = (⟨none, []⟩, none) ∧
    LoadFlat wadFive "FOO" = (⟨[]⟩, none) :=
  ⟨(c5_load_absent_amended wadFive "FOO").1 rfl,
   (c5_load_absent_amended wadFive "FOO").2 rfl⟩

/-! ## C10: asymmetric nil check in sidedef resolution -/

/-- C10: `segSidedef` returns nil exactly when the seg's side flag is
nonzero and the linedef's left sidedef is the -1 none marker; when the
side flag is 0 it indexes the sidedef array at the right-sidedef field
unconditionally — no check for -1 — so it returns without panicking
exactly when that field is nonnegative and below the array length.
`segOppositeSidedef` satisfies the mirrored statements. -/
theorem c10_segSidedef_asymmetry (level : Level) (seg : Seg)
    (linedef : Linedef) :
    (segSidedef level seg linedef = some none ↔
      seg.segside ≠ 0 ∧ linedef.sidedefLeft = -1) ∧
    (seg.segside = 0 →
      ((∃ sd, segSidedef level seg linedef = some (some sd)) ↔
        0 ≤ linedef.sidedefRight ∧
          linedef.sidedefRight.toNat < level.sidedefs.length)) ∧
    (segOppositeSidedef level seg linedef = some none ↔
      seg.segside = 0 ∧ linedef.sidedefLeft = -1) ∧
    (seg.segside ≠ 0 →
      ((∃ sd, segOppositeSidedef level seg linedef = some (some sd)) ↔
        0 ≤ linedef.sidedefRight ∧
          linedef.sidedefRight.toNat < level.sidedefs.length)) := by
  refine ⟨?_, ?_, ?_, ?_⟩
  · by_cases h : seg.segside = 0
    · cases hi : idxGet level.sidedefs linedef.sidedefRight <;>
        simp [segSidedef, h, hi]
    · by_cases h2 : linedef.sidedefLeft = -1
      · simp [segSidedef, h, h2]
      · cases hi : idxGet level.sidedefs linedef.sidedefLeft <;>
          simp [segSidedef, h, h2, hi]
  · intro h
    rw [show (∃ sd, segSidedef level seg linedef = some (some sd)) ↔
        (∃ sd, idxGet level.sidedefs linedef.sidedefRight = some sd) by
      constructor
      · rintro ⟨sd, hsd⟩
        refine ⟨sd, ?_⟩
        cases hi : idxGet level.sidedefs linedef.sidedefRight <;>
          simp [segSidedef, h, hi] at hsd <;> simp [hsd]
      · rintro ⟨sd, hsd⟩
        exact ⟨sd, by simp [segSidedef, h, hsd]⟩]
    exact idxGet_some_iff level.sidedefs linedef.sidedefRight
  · by_cases h : seg.segside = 0
    · by_cases h2 : linedef.sidedefLeft = -1
      · simp [segOppositeSidedef, h, h2]
      · cases hi : idxGet level.sidedefs linedef.sidedefLeft <;>
          simp [segOppositeSidedef, h, h2, hi]
    · cases hi : idxGet level.sidedefs linedef.sidedefRight <;>
        simp [segOppositeSidedef, h, hi]
  · intro h
    rw [show (∃ sd, segOppositeSidedef level seg linedef = some (some sd)) ↔
        (∃ sd, idxGet level.sidedefs linedef.sidedefRight = some sd) by
      constructor
      · rintro ⟨sd, hsd⟩
        refine ⟨sd, ?_⟩
        cases hi : idxGet level.sidedefs linedef.sidedefRight <;>
          simp [segOppositeSidedef, h, hi] at hsd <;> simp [hsd]
      · rintro ⟨sd, hsd⟩
        exact ⟨sd, by simp [segOppositeSidedef, h, hsd]⟩]
    exact idxGet_some_iff level.sidedefs linedef.sidedefRight

/-- C10 witness: on a level with a single sidedef, a side-flag-1 seg whose
linedef has left sidedef -1 resolves the near sidedef to nil, and a
side-flag-0 seg whose linedef has right sidedef -1 panics (the -1 none
marker is not checked on that path). -/
theorem c10_segSidedef_asymmetry_witness :
    segSidedef ⟨[], [⟨0, 0, "-", "-", "-", 0⟩], [], [], [], [], []⟩
      ⟨0, 1, 0, 0, 1, 0⟩ ⟨0, 1, 0, 0, 0, 0, -1⟩ = some none ∧
    ¬ (0 : Int) ≤ (-1 : Int) :=
  ⟨(c10_segSidedef_asymmetry ⟨[], [⟨0, 0, "-", "-", "-", 0⟩], [], [], [], [], []⟩
      ⟨0, 1, 0, 0, 1, 0⟩ ⟨0, 1, 0, 0, 0, 0, -1⟩).1.mpr (by decide),
   by decide⟩

/-! ## C9: bounding-box containment is strict on all four edges -/

/-- C9: `intersects` holds exactly under the four strict inequalities, so a
point lying on any edge line of a box is outside it, and at an internal
node whose two child boxes both have the point on an edge, `findSector`
returns none. -/
theorem c9_intersects_strict :
    (∀ (p : Point) (b : BBox), intersects p b = true ↔
      b.left < p.x ∧ p.x < b.right ∧ b.bottom < p.y ∧ p.y < b.top) ∧
    (∀ (p : Point) (b : BBox),
      p.x = b.left ∨ p.x = b.right ∨ p.y = b.bottom ∨ p.y = b.top →
      intersects p b = false) ∧
    (∀ (level : Level) (p : Point) (idx : Int) (node : Node) (fuel : Nat),
      ¬ goAndMask idx subsectorBit = subsectorBit →
      idxGet level.nodes idx = some node →
      (p.x = node.bbox0.left ∨ p.x = node.bbox0.right ∨
        p.y = node.bbox0.bottom ∨ p.y = node.bbox0.top) →
      (p.x = node.bbox1.left ∨ p.x = node.bbox1.right ∨
        p.y = node.bbox1.bottom ∨ p.y = node.bbox1.top) →
      findSector level p idx (fuel + 1) = some none) := by
  have hstrict : ∀ (p : Point) (b : BBox), intersects p b = true ↔
      b.left < p.x ∧ p.x < b.right ∧ b.bottom < p.y ∧ p.y < b.top := by
    intro p b
    simp [intersects, and_assoc]
  have hedge : ∀ (p : Point) (b : BBox),
      p.x = b.left ∨ p.x = b.right ∨ p.y = b.bottom ∨ p.y = b.top →
      intersects p b = false := by
    intro p b hb
    rw [Bool.eq_false_iff]
    intro hc
    rw [hstrict] at hc
    omega
  refine ⟨hstrict, hedge, ?_⟩
  intro level p idx node fuel hleaf hnode h0 h1
  unfold findSector
  simp only [if_neg hleaf, hnode, hedge p node.bbox0 h0, hedge p node.bbox1 h1]
  simp

/-- C9 witness: a point lying on the shared edge of the two child boxes of
a one-node level is located in neither, so `findSector` returns none. -/
theorem c9_intersects_strict_witness :
    intersects ⟨50, 50⟩ ⟨100, 0, 0, 50⟩ = false ∧
    findSector ⟨[], [], [], [], [],
        [⟨32, 32, 1, 0, ⟨100, 0, 0, 50⟩, ⟨100, 0, 50, 100⟩, toInt16 0x8000,
          toInt16 0x8001⟩], []⟩ ⟨50, 50⟩ 0 1 = some none :=
  ⟨c9_intersects_strict.2.1 ⟨50, 50⟩ ⟨100, 0, 0, 50⟩ (by decide),
   c9_intersects_strict.2.2 ⟨[], [], [], [], [],
        [⟨32, 32, 1, 0, ⟨100, 0, 0, 50⟩, ⟨100, 0, 50, 100⟩, toInt16 0x8000,
          toInt16 0x8001⟩], []⟩ ⟨50, 50⟩ 0
      ⟨32, 32, 1, 0, ⟨100, 0, 0, 50⟩, ⟨100, 0, 50, 100⟩, toInt16 0x8000,
        toInt16 0x8001⟩ 0 (by decide) (by decide) (by decide) (by decide)⟩

/-! ## C4: point location descends by bounding-box containment -/

/-- C4: `findSector` descends by bounding-box containment, not
splitting-side: at an internal node it tests child 0's box first and
recurses into the first containing box, returning none when neither box
contains the point; at a leaf it returns the sector of the first seg whose
near sidedef — or, when that is nil, whose opposite sidedef — resolves. -/
theorem c4_findSector_descent :
    (∀ (level : Level) (p : Point) (idx : Int) (node : Node) (fuel : Nat),
      ¬ goAndMask idx subsectorBit = subsectorBit →
      idxGet level.nodes idx = some node →
      findSector level p idx (fuel + 1) =
        (if intersects p node.bbox0 then findSector level p node.child0 fuel
         else if intersects p node.bbox1 then
           findSector level p node.child1 fuel
         else some none)) ∧
    (∀ (level : Level) (p : Point) (idx : Int) (ssector : SSector)
        (seg : Seg) (linedef : Linedef) (sd : Sidedef) (sector : Sector)
        (fuel : Nat),
      goAndMask idx subsectorBit = subsectorBit →
      idxGet level.ssectors (leafMask idx : Int) = some ssector →
      ssector.startSeg < toInt16 (ssector.startSeg + ssector.numsegs) →
      idxGet level.segs ssector.startSeg = some seg →
      idxGet level.linedefs seg.lineNum = some linedef →
      segSidedef level seg linedef = some (some sd) →
      idxGet level.sectors sd.sectorRef = some sector →
      findSector level p idx (fuel + 2) = some (some sector)) ∧
    (∀ (level : Level) (p : Point) (idx : Int) (ssector : SSector)
        (seg : Seg) (linedef : Linedef) (sd : Sidedef) (sector : Sector)
        (fuel : Nat),
      goAndMask idx subsectorBit = subsectorBit →
      idxGet level.ssectors (leafMask idx : Int) = some ssector →
      ssector.startSeg < toInt16 (ssector.startSeg + ssector.numsegs) →
      idxGet level.segs ssector.startSeg = some seg →
      idxGet level.linedefs seg.lineNum = some linedef →
      segSidedef level seg linedef = some none →
      segOppositeSidedef level seg linedef = some (some sd) →
      idxGet level.sectors sd.sectorRef = some sector →
      findSector level p idx (fuel + 2) = some (some sector)) := by
  refine ⟨?_, ?_, ?_⟩
  · intro level p idx node fuel hleaf hnode
    conv_lhs => rw [findSector]
    simp only [if_neg hleaf, hnode]
  · intro level p idx ssector seg linedef sd sector fuel hleaf hss hloop hseg
      hld hsd hsec
    unfold findSector
    simp only [if_pos hleaf, hss]
    unfold findSectorSegs
    simp only [if_pos hloop, hseg, hld, hsd, hsec]
    simp
  · intro level p idx ssector seg linedef sd sector fuel hleaf hss hloop hseg
      hld hsd hopp hsec
    unfold findSector
    simp only [if_pos hleaf, hss]
    unfold findSectorSegs
    simp only [if_pos hloop, hseg, hld, hsd, hopp, hsec]
    simp

/-- The two-leaf synthetic level of the point-location property: one
splitter node whose children are subsectors 0 and 1, with disjoint
bounding boxes, each holding one seg of a one-sided linedef. -/
def levelTwoLeaf : Level :=
  { linedefs := [⟨0, 1, 0, 0, 0, 0, -1⟩]
    sidedefs := [⟨0, 0, "-", "-", "MWALL", 0⟩, ⟨0, 0, "-", "-", "MWALL", 1⟩]
    vertexes := [⟨0, 0⟩, ⟨64, 0⟩]
    segs := [⟨0, 1, 0, 0, 0, 0⟩]
    ssectors := [⟨1, 0⟩, ⟨1, 0⟩]
    nodes := [⟨32, 32, 1, 0, ⟨100, 0, 0, 50⟩, ⟨100, 0, 50, 100⟩,
      toInt16 0x8000, toInt16 0x8001⟩]
    sectors := [⟨0, 64, "FLAT1", "FLAT2", 160, 0, 0⟩,
                ⟨8, 72, "FLAT1", "FLAT2", 160, 0, 1⟩] }

/-- C4 witness: on the two-leaf level, the internal node routes a point in
child 0's box into child 0 (and a point in neither box to none), and the
leaf slot 0x8000 resolves the sector of its first seg's near sidedef. -/
theorem c4_findSector_descent_witness :
    findSector levelTwoLeaf ⟨200, 200⟩ 0 1 = some none ∧
    findSector levelTwoLeaf ⟨25, 25⟩ (toInt16 0x8000) 2 =
      some (some ⟨0, 64, "FLAT1", "FLAT2", 160, 0, 0⟩) := by
  constructor
  · have := c4_findSector_descent.1 levelTwoLeaf ⟨200, 200⟩ 0
      ⟨32, 32, 1, 0, ⟨100, 0, 0, 50⟩, ⟨100, 0, 50, 100⟩, toInt16 0x8000,
        toInt16 0x8001⟩ 0 (by decide) (by decide)
    rw [this]
    decide
  · exact c4_findSector_descent.2.1 levelTwoLeaf ⟨25, 25⟩ (toInt16 0x8000)
      ⟨1, 0⟩ ⟨0, 1, 0, 0, 0, 0⟩ ⟨0, 1, 0, 0, 0, 0, -1⟩
      ⟨0, 0, "-", "-", "MWALL", 0⟩ ⟨0, 64, "FLAT1", "FLAT2", 160, 0, 0⟩ 0
      (by decide) (by decide) (by decide) (by decide) (by decide) (by decide)
      (by decide)

/-! ## C7: the middle wall quad -/

/-- C7 (counterexample to the claim as stated): the claim asserts each
vertex's X coordinate equals the negated X of the corresponding line
endpoint.  `Point3.X` is an `int16`, so `-start.XCoord` wraps: for a
one-sided seg whose start vertex has XCoord = -32768 — a value any WAD's
VERTEXES lump can hold — the emitted middle quad carries X = -32768 at
the start-vertex corners, not the negated X, which would be 32768. -/
theorem c7_middle_quad_counterexample :
    genLinedef
      ⟨[⟨0, 1, 0, 0, 0, 0, -1⟩], [⟨0, 0, "-", "-", "MWALL", 0⟩],
        [⟨-32768, 0⟩, ⟨64, 0⟩], [⟨0, 1, 0, 0, 0, 0⟩], [⟨1, 0⟩], [],
        [⟨0, 64, "FLAT1", "FLAT2", 160, 0, 0⟩]⟩
      ⟨0, 1, 0, 0, 0, 0⟩ 0 =
      some [⟨"MWALL", 160,
        [⟨-32768, 0, 0, 0, 1⟩, ⟨-32768, 64, 0, 0, 0⟩, ⟨-64, 64, 0, 1, 0⟩,
         ⟨-64, 64, 0, 1, 0⟩, ⟨-64, 0, 0, 1, 1⟩, ⟨-32768, 0, 0, 0, 1⟩]⟩] ∧
    -(-32768 : Int) = 32768 ∧ (-32768 : Int) ≠ 32768 := by
  decide

/-- C7 (amended): for a seg whose near sidedef resolves and whose middle
texture name is not "-", `genLinedef` emits the six-vertex middle quad
(two triangles) spanning the near sector's floor height to its ceiling
height, with each X coordinate the `int16` negation (`toInt16`, wrapping
at -32768) of the corresponding line endpoint's X — which equals the exact
negated X for every endpoint other than -32768 — and all U/V coordinates
in {0, 1}; the quad is emitted whether or not an opposite sidedef exists,
and when the opposite sidedef is nil (and so no upper or lower quad can be
emitted) it is the only mesh emitted. -/
theorem c7_middle_quad (level : Level) (seg : Seg) (linedefId : Int)
    (linedef : Linedef) (sidedef : Sidedef) (sector : Sector)
    (vstart vend : Vertex) (out : List Mesh)
    (hld : idxGet level.linedefs linedefId = some linedef)
    (hsd : segSidedef level seg linedef = some (some sidedef))
    (hsec : idxGet level.sectors sidedef.sectorRef = some sector)
    (hmid : sidedef.middleTexture ≠ "-")
    (hvs : idxGet level.vertexes linedef.vertexStart = some vstart)
    (hve : idxGet level.vertexes linedef.vertexEnd = some vend)
    (hout : genLinedef level seg linedefId = some out) :
    (⟨sidedef.middleTexture, sector.lightlevel,
      [⟨toInt16 (-vstart.xCoord), sector.floorHeight, vstart.yCoord, 0, 1⟩,
       ⟨toInt16 (-vstart.xCoord), sector.ceilingHeight, vstart.yCoord, 0, 0⟩,
       ⟨toInt16 (-vend.xCoord), sector.ceilingHeight, vend.yCoord, 1, 0⟩,
       ⟨toInt16 (-vend.xCoord), sector.ceilingHeight, vend.yCoord, 1, 0⟩,
       ⟨toInt16 (-vend.xCoord), sector.floorHeight, vend.yCoord, 1, 1⟩,
       ⟨toInt16 (-vstart.xCoord), sector.floorHeight, vstart.yCoord, 0, 1⟩]⟩ : Mesh)
      ∈ out ∧
    (segOppositeSidedef level seg linedef = some none →
      out = [⟨sidedef.middleTexture, sector.lightlevel,
        [⟨toInt16 (-vstart.xCoord), sector.floorHeight, vstart.yCoord, 0, 1⟩,
         ⟨toInt16 (-vstart.xCoord), sector.ceilingHeight, vstart.yCoord, 0, 0⟩,
         ⟨toInt16 (-vend.xCoord), sector.ceilingHeight, vend.yCoord, 1, 0⟩,
         ⟨toInt16 (-vend.xCoord), sector.ceilingHeight, vend.yCoord, 1, 0⟩,
         ⟨toInt16 (-vend.xCoord), sector.floorHeight, vend.yCoord, 1, 1⟩,
         ⟨toInt16 (-vstart.xCoord), sector.floorHeight, vstart.yCoord, 0, 1⟩]⟩]) := by
  simp only [genLinedef, hld, hsd, hsec, hvs, hve] at hout
  cases hopp : segOppositeSidedef level seg linedef with
  | none =>
    rw [hopp] at hout
    exact absurd hout (by simp)
  | some osd =>
    rw [hopp] at hout
    dsimp only at hout
    cases hu : upperMeshes level sidedef sector osd vstart vend with
    | none =>
      rw [hu] at hout
      exact absurd hout (by simp)
    | some um =>
      rw [hu] at hout
      cases hl : lowerMeshes level sidedef sector osd vstart vend with
      | none =>
        rw [hl] at hout
        exact absurd hout (by simp)
      | some lm =>
        rw [hl] at hout
        simp only [Option.some.injEq] at hout
        subst hout
        have hmm : middleMeshes sidedef sector vstart vend =
            [⟨sidedef.middleTexture, sector.lightlevel,
              [⟨toInt16 (-vstart.xCoord), sector.floorHeight, vstart.yCoord, 0, 1⟩,
               ⟨toInt16 (-vstart.xCoord), sector.ceilingHeight, vstart.yCoord, 0, 0⟩,
               ⟨toInt16 (-vend.xCoord), sector.ceilingHeight, vend.yCoord, 1, 0⟩,
               ⟨toInt16 (-vend.xCoord), sector.ceilingHeight, vend.yCoord, 1, 0⟩,
               ⟨toInt16 (-vend.xCoord), sector.floorHeight, vend.yCoord, 1, 1⟩,
               ⟨toInt16 (-vstart.xCoord), sector.floorHeight, vstart.yCoord, 0, 1⟩]⟩] := by
          simp [middleMeshes, hmid]
        constructor
        · rw [hmm]
          simp
        · intro hnil
          have hosd : osd = none := by injection hnil
          subst hosd
          have hu' : um = [] := by
            have : upperMeshes level sidedef sector none vstart vend =
                some [] := by
              unfold upperMeshes
              by_cases ht : sidedef.upperTexture = "-" <;> simp [ht]
            rw [this] at hu
            exact (Option.some.injEq _ _ ▸ hu).symm
          have hl' : lm = [] := by
            have : lowerMeshes level sidedef sector none vstart vend =
                some [] := by
              unfold lowerMeshes
              by_cases ht : sidedef.lowerTexture = "-" <;> simp [ht]
            rw [this] at hl
            exact (Option.some.injEq _ _ ▸ hl).symm
          rw [hu', hl', hmm]
          simp

/-- C7 witness: the two-leaf level's single one-sided seg produces exactly
its middle quad, spanning floor height 0 to ceiling height 64, with the
`int16`-negated X coordinates 0 and -64 (no wrap at these endpoints). -/
theorem c7_middle_quad_witness :
    (⟨"MWALL", 160,
      [⟨0, 0, 0, 0, 1⟩, ⟨0, 64, 0, 0, 0⟩, ⟨-64, 64, 0, 1, 0⟩,
       ⟨-64, 64, 0, 1, 0⟩, ⟨-64, 0, 0, 1, 1⟩, ⟨0, 0, 0, 0, 1⟩]⟩ : Mesh) ∈
      [(⟨"MWALL", 160,
        [⟨0, 0, 0, 0, 1⟩, ⟨0, 64, 0, 0, 0⟩, ⟨-64, 64, 0, 1, 0⟩,
         ⟨-64, 64, 0, 1, 0⟩, ⟨-64, 0, 0, 1, 1⟩, ⟨0, 0, 0, 0, 1⟩]⟩ : Mesh)] ∧
    [(⟨"MWALL", 160,
      [⟨0, 0, 0, 0, 1⟩, ⟨0, 64, 0, 0, 0⟩, ⟨-64, 64, 0, 1, 0⟩,
       ⟨-64, 64, 0, 1, 0⟩, ⟨-64, 0, 0, 1, 1⟩, ⟨0, 0, 0, 0, 1⟩]⟩ : Mesh)] =
      [(⟨"MWALL", 160,
        [⟨0, 0, 0, 0, 1⟩, ⟨0, 64, 0, 0, 0⟩, ⟨-64, 64, 0, 1, 0⟩,
         ⟨-64, 64, 0, 1, 0⟩, ⟨-64, 0, 0, 1, 1⟩, ⟨0, 0, 0, 0, 1⟩]⟩ : Mesh)] := by
  have h := c7_middle_quad levelTwoLeaf ⟨0, 1, 0, 0, 0, 0⟩ 0
    ⟨0, 1, 0, 0, 0, 0, -1⟩ ⟨0, 0, "-", "-", "MWALL", 0⟩
    ⟨0, 64, "FLAT1", "FLAT2", 160, 0, 0⟩ ⟨0, 0⟩ ⟨64, 0⟩
    [⟨"MWALL", 160,
      [⟨0, 0, 0, 0, 1⟩, ⟨0, 64, 0, 0, 0⟩, ⟨-64, 64, 0, 1, 0⟩,
       ⟨-64, 64, 0, 1, 0⟩, ⟨-64, 0, 0, 1, 1⟩, ⟨0, 0, 0, 0, 1⟩]⟩]
    (by decide) (by decide) (by decide) (by decide) (by decide) (by decide)
    (by decide)
  exact ⟨h.1, h.2 (by decide)⟩

/-! ## C8: oversized pictures are skipped, not fatal -/

/-- C8: a patch lump whose picture header declares width > 4096 or
height > 4096 is skipped — `decodeOnePatch` yields `skip`, the patch is
omitted from the cache — and `readPatchLumps` of any patch-name table
containing it behaves exactly as if the entry were absent: the remaining
patches are decoded and no error is returned on its account. -/
theorem c8_oversized_patch_skipped (transparent : Nat) (nm : String)
    (lump : List Nat) (entries1 entries2 : List (String × List Nat))
    (acc : List (String × Image)) (fuel : Nat)
    (hlen : ¬ lump.length < 8)
    (hbig : int16ofBytes (lump.getD 0 0) (lump.getD 1 0) > 4096 ∨
      int16ofBytes (lump.getD 2 0) (lump.getD 3 0) > 4096) :
    decodeOnePatch transparent lump fuel = .skip ∧
    readPatchLumps transparent (entries1 ++ (nm, lump) :: entries2) acc fuel =
      readPatchLumps transparent (entries1 ++ entries2) acc fuel := by
  have hskip : decodeOnePatch transparent lump fuel = .skip := by
    unfold decodeOnePatch
    rw [if_neg hlen]
    dsimp only
    rw [if_pos hbig]
  refine ⟨hskip, ?_⟩
  induction entries1 generalizing acc with
  | nil =>
    simp only [List.nil_append]
    conv_lhs => rw [readPatchLumps]
    rw [hskip]
  | cons e rest ih =>
    obtain ⟨nm', lump'⟩ := e
    simp only [List.cons_append, readPatchLumps]
    cases decodeOnePatch transparent lump' fuel with
    | panic => rfl
    | err => rfl
    | skip => exact ih _
    | ok img => exact ih _

/-- C8 witness: an 8192-wide picture between two valid zero-run pictures is
skipped and the other two decode as if it were not there. -/
theorem c8_oversized_patch_skipped_witness :
    decodeOnePatch 255 [0, 32, 2, 0, 0, 0, 0, 0] 3 = .skip ∧
    readPatchLumps 255
      ([("A", [1, 0, 1, 0, 0, 0, 0, 0, 12, 0, 0, 0, 255])] ++
        ("BIG", [0, 32, 2, 0, 0, 0, 0, 0]) ::
          [("B", [1, 0, 1, 0, 0, 0, 0, 0, 12, 0, 0, 0, 255])]) [] 3 =
      readPatchLumps 255
        ([("A", [1, 0, 1, 0, 0, 0, 0, 0, 12, 0, 0, 0, 255])] ++
          [("B", [1, 0, 1, 0, 0, 0, 0, 0, 12, 0, 0, 0, 255])]) [] 3 :=
  c8_oversized_patch_skipped 255 "BIG" [0, 32, 2, 0, 0, 0, 0, 0]
    [("A", [1, 0, 1, 0, 0, 0, 0, 0, 12, 0, 0, 0, 255])]
    [("B", [1, 0, 1, 0, 0, 0, 0, 0, 12, 0, 0, 0, 255])] [] 3
    (by decide) (by decide)

/-! ## C3: compositing is last-patch-wins with unconditional overwrite -/

/-- A destination coordinate is covered by a patch when it is the image of
one of the patch's source pixels under the (X,Y)-offset translation. -/
def coversAt (image : Image) (patch : Patch) (q : Int × Int) : Prop :=
  patch.xOffset ≤ q.1 ∧ q.1 < patch.xOffset + image.width ∧
    patch.yOffset ≤ q.2 ∧ q.2 < patch.yOffset + image.height

instance (image : Image) (patch : Patch) (q : Int × Int) :
    Decidable (coversAt image patch q) := by
  unfold coversAt
  infer_instance

/-- The color a patch writes at a destination coordinate it covers: its
source pixel at the translated coordinate, mapped through the palette with
the sentinel-to-transparent alpha rule. -/
def srcColorAt (w : WAD) (image : Image) (patch : Patch) (q : Int × Int) :
    RGBA :=
  pixelColor w (image.pixels.getD
    (((q.2 - patch.yOffset) * image.width + (q.1 - patch.xOffset)).toNat) 0)

/-- The claim's reading of the compositing loop: the color written by the
last patch in list order that covers the coordinate, if any (visiting the
patches in order, a later covering patch overwrites the accumulator
unconditionally — even when its pixel is the transparent sentinel). -/
def lastCoverAux (w : WAD) (ps : List Patch) (q : Int × Int)
    (acc : Option RGBA) : Option RGBA :=
  match ps with
  | [] => acc
  | patch :: rest =>
    match LoadImage w patch.pNameNumber with
    | none => lastCoverAux w rest q acc
    | some image =>
      lastCoverAux w rest q
        (if coversAt image patch q then some (srcColorAt w image patch q)
         else acc)

theorem toNat_linear (a b c : Int) (ha : 0 ≤ a) (hb : 0 ≤ b) (hc : 0 ≤ c) :
    (a * c + b).toNat = a.toNat * c.toNat + b.toNat := by
  have h : a * c + b = ((a.toNat * c.toNat + b.toNat : Nat) : Int) := by
    push_cast
    rw [Int.toNat_of_nonneg ha, Int.toNat_of_nonneg hb, Int.toNat_of_nonneg hc]
  rw [h, Int.toNat_natCast]

theorem blitRow_apply (tw th : Int) (c : Nat → RGBA) (xo yy : Int)
    (q : Int × Int) (hq1 : 0 ≤ q.1) (hq2 : q.1 < tw) (hq3 : 0 ≤ q.2)
    (hq4 : q.2 < th) :
    ∀ (nW : Nat) (d : Int × Int → RGBA),
      ((List.range nW).foldl
        (fun d (x : Nat) => rgbaSet tw th d (xo + (x : Int), yy) (c x)) d) q =
        if q.2 = yy ∧ xo ≤ q.1 ∧ q.1 < xo + (nW : Int) then
          c (q.1 - xo).toNat
        else d q := by
  intro nW
  induction nW with
  | zero =>
    intro d
    rw [if_neg (by omega)]
    rfl
  | succ n ih =>
    intro d
    rw [List.range_succ, List.foldl_append]
    simp only [List.foldl_cons, List.foldl_nil]
    by_cases hcase : q = (xo + (n : Int), yy)
    · have hL : rgbaSet tw th ((List.range n).foldl
          (fun d (x : Nat) => rgbaSet tw th d (xo + (x : Int), yy) (c x)) d)
          (xo + (n : Int), yy) (c n) q = c n := by
        unfold rgbaSet
        rw [if_pos ⟨by rw [hcase] at hq1; exact hq1, by rw [hcase] at hq2; exact hq2,
          by rw [hcase] at hq3; exact hq3, by rw [hcase] at hq4; exact hq4⟩]
        rw [if_pos hcase]
      rw [hL, if_pos ⟨by rw [hcase], by rw [hcase]; omega, by rw [hcase]; push_cast; omega⟩]
      have hx : q.1 - xo = (n : Int) := by rw [hcase]; omega
      rw [hx, Int.toNat_natCast]
    · have hL : rgbaSet tw th ((List.range n).foldl
          (fun d (x : Nat) => rgbaSet tw th d (xo + (x : Int), yy) (c x)) d)
          (xo + (n : Int), yy) (c n) q =
          ((List.range n).foldl
            (fun d (x : Nat) => rgbaSet tw th d (xo + (x : Int), yy) (c x)) d) q := by
        unfold rgbaSet
        split
        · exact if_neg hcase
        · rfl
      rw [hL, ih d]
      by_cases hcond : q.2 = yy ∧ xo ≤ q.1 ∧ q.1 < xo + (n : Int)
      · rw [if_pos hcond, if_pos ⟨hcond.1, hcond.2.1, by push_cast; omega⟩]
      · rw [if_neg hcond, if_neg ?_]
        intro hco
        obtain ⟨h1, h2, h3⟩ := hco
        apply hcase
        rw [Prod.ext_iff]
        refine ⟨?_, h1⟩
        push_cast at h3
        have : ¬ q.1 < xo + (n : Int) := fun hlt => hcond ⟨h1, h2, hlt⟩
        omega

theorem blitRows_apply (tw th : Int) (pix : Nat → Nat → RGBA) (xo yo : Int)
    (nW : Nat) (q : Int × Int) (hq1 : 0 ≤ q.1) (hq2 : q.1 < tw)
    (hq3 : 0 ≤ q.2) (hq4 : q.2 < th) :
    ∀ (nH : Nat) (d : Int × Int → RGBA),
      ((List.range nH).foldl (fun d (y : Nat) => (List.range nW).foldl
        (fun d (x : Nat) => rgbaSet tw th d (xo + (x : Int), yo + (y : Int)) (pix y x))
          d) d) q =
        if yo ≤ q.2 ∧ q.2 < yo + (nH : Int) ∧ xo ≤ q.1 ∧ q.1 < xo + (nW : Int)
        then pix (q.2 - yo).toNat (q.1 - xo).toNat
        else d q := by
  intro nH
  induction nH with
  | zero =>
    intro d
    rw [if_neg (by omega)]
    rfl
  | succ n ih =>
    intro d
    rw [List.range_succ, List.foldl_append]
    simp only [List.foldl_cons, List.foldl_nil]
    rw [blitRow_apply tw th (pix n) xo (yo + (n : Int)) q hq1 hq2 hq3 hq4 nW]
    by_cases hrow : q.2 = yo + (n : Int) ∧ xo ≤ q.1 ∧ q.1 < xo + (nW : Int)
    · rw [if_pos hrow, if_pos ⟨by omega, by push_cast; omega, hrow.2.1, hrow.2.2⟩]
      have hy : (q.2 - yo).toNat = n := by
        rw [hrow.1]
        omega
      rw [hy]
    · rw [if_neg hrow, ih d]
      by_cases hcond : yo ≤ q.2 ∧ q.2 < yo + (n : Int) ∧ xo ≤ q.1 ∧
          q.1 < xo + (nW : Int)
      · rw [if_pos hcond, if_pos ⟨hcond.1, by push_cast; omega, hcond.2.2⟩]
      · rw [if_neg hcond, if_neg ?_]
        intro hco
        obtain ⟨h1, h2, h3, h4⟩ := hco
        push_cast at h2
        by_cases hy : q.2 = yo + (n : Int)
        · exact hrow ⟨hy, h3, h4⟩
        · exact hcond ⟨h1, by omega, h3, h4⟩

theorem blitPatch_apply (w : WAD) (tw th : Int) (d : Int × Int → RGBA)
    (image : Image) (patch : Patch) (q : Int × Int) (hq1 : 0 ≤ q.1)
    (hq2 : q.1 < tw) (hq3 : 0 ≤ q.2) (hq4 : q.2 < th) :
    blitPatch w tw th d image patch q =
      if coversAt image patch q then srcColorAt w image patch q else d q := by
  unfold blitPatch
  rw [blitRows_apply tw th
    (fun y x => pixelColor w (image.pixels.getD (y * image.width.toNat + x) 0))
    patch.xOffset patch.yOffset image.width.toNat q hq1 hq2 hq3 hq4
    image.height.toNat d]
  by_cases hc : coversAt image patch q
  · have hco := hc
    obtain ⟨h1, h2, h3, h4⟩ := hco
    rw [if_pos ⟨h3, by omega, h1, by omega⟩, if_pos hc]
    unfold srcColorAt
    have hw : (0 : Int) ≤ image.width := by omega
    rw [toNat_linear (q.2 - patch.yOffset) (q.1 - patch.xOffset) image.width
      (by omega) (by omega) hw]
  · rw [if_neg ?_, if_neg hc]
    intro hco
    obtain ⟨h3, h2', h1, h2⟩ := hco
    exact hc ⟨h1, by omega, h3, by omega⟩

theorem lastCoverAux_shift (w : WAD) (q : Int × Int) :
    ∀ (ps : List Patch) (acc : Option RGBA),
      lastCoverAux w ps q acc =
        match lastCoverAux w ps q none with
        | some c => some c
        | none => acc := by
  intro ps
  induction ps with
  | nil =>
    intro acc
    rfl
  | cons patch rest ih =>
    intro acc
    cases hi : LoadImage w patch.pNameNumber with
    | none =>
      simp only [lastCoverAux, hi]
      exact ih acc
    | some image =>
      by_cases hc : coversAt image patch q
      · simp only [lastCoverAux, hi, if_pos hc]
        rw [ih (some (srcColorAt w image patch q))]
        cases h2 : lastCoverAux w rest q none <;> rfl
      · simp only [lastCoverAux, hi, if_neg hc]
        exact ih acc

theorem blitAll_apply (w : WAD) (tw th : Int) :
    ∀ (ps : List Patch) (d f : Int × Int → RGBA) (q : Int × Int),
      blitAll w tw th ps d = some f →
      0 ≤ q.1 → q.1 < tw → 0 ≤ q.2 → q.2 < th →
      f q = (lastCoverAux w ps q none).getD (d q) := by
  intro ps
  induction ps with
  | nil =>
    intro d f q hb hq1 hq2 hq3 hq4
    simp only [blitAll, Option.some.injEq] at hb
    subst hb
    rfl
  | cons patch rest ih =>
    intro d f q hb hq1 hq2 hq3 hq4
    simp only [blitAll] at hb
    cases hi : LoadImage w patch.pNameNumber with
    | none =>
      rw [hi] at hb
      exact absurd hb (by simp)
    | some image =>
      rw [hi] at hb
      rw [ih (blitPatch w tw th d image patch) f q hb hq1 hq2 hq3 hq4,
        blitPatch_apply w tw th d image patch q hq1 hq2 hq3 hq4]
      simp only [lastCoverAux, hi]
      rw [lastCoverAux_shift w q rest
        (if coversAt image patch q then some (srcColorAt w image patch q)
         else none)]
      cases h2 : lastCoverAux w rest q none with
      | some cc => rfl
      | none =>
        by_cases hc : coversAt image patch q
        · rw [if_pos hc, if_pos hc]
          rfl
        · rw [if_neg hc, if_neg hc]

/-- C3: when `loadTexture` materializes a composite texture, its patches
are blitted in list order with unconditional per-pixel overwrite: at every
in-bounds destination coordinate the final pixel is exactly the one written
by the last covering patch in list order (the zero-initialized background
when no patch covers it).  In particular no source pixel is skipped for
being transparent: a later covering patch whose source pixel is the
transparent sentinel overwrites an earlier opaque pixel with the
zero-alpha sentinel color. -/
theorem c3_composite_last_patch_wins (w : WAD) (texname : String)
    (header : TextureHeader) (f : Int × Int → RGBA) (q : Int × Int)
    (hhd : ((LoadTexture w texname).1).header = some header)
    (hf : loadTexture w texname = some (some f))
    (hq1 : 0 ≤ q.1) (hq2 : q.1 < header.width) (hq3 : 0 ≤ q.2)
    (hq4 : q.2 < header.height) :
    f q = (lastCoverAux w ((LoadTexture w texname).1).patches q none).getD
      ⟨0, 0, 0, 0⟩ := by
  simp only [loadTexture] at hf
  rw [hhd] at hf
  dsimp only at hf
  cases hb : blitAll w header.width header.height
      ((LoadTexture w texname).1).patches (fun _ => ⟨0, 0, 0, 0⟩) with
  | none =>
    rw [hb] at hf
    exact absurd hf (by simp)
  | some g =>
    rw [hb] at hf
    simp only [Option.map_some', Option.some.injEq] at hf
    subst hf
    exact blitAll_apply w header.width header.height
      ((LoadTexture w texname).1).patches (fun _ => ⟨0, 0, 0, 0⟩) g q hb
      hq1 hq2 hq3 hq4

/-- A two-patch texture in which patch 2 fully overlaps patch 1 at the
same offset and its only source pixel is the transparent sentinel, while
patch 1's is opaque. -/
def wadOverlay : WAD :=
  { pnames := ["P1", "P2"]
    patches := [("P1", ⟨1, 1, [3]⟩), ("P2", ⟨1, 1, [255]⟩)]
    transparentPaletteIndex := 255
    playpal0 := fun _ => ⟨9, 9, 9⟩
    textures := [("OVERLAY", ⟨some ⟨"OVERLAY", 0, 1, 1, 0, 2⟩,
      [⟨0, 0, 0, 0, 0⟩, ⟨0, 0, 1, 0, 0⟩]⟩)]
    flats := [] }

/-- C3 witness: materializing the overlay texture leaves, at the overlap
coordinate, the last patch's sentinel pixel — alpha 0 — overwriting the
earlier opaque pixel. -/
theorem c3_composite_last_patch_wins_witness :
    ∃ f, loadTexture wadOverlay "OVERLAY" = some (some f) ∧
      f (0, 0) = ⟨9, 9, 9, 0⟩ := by
  refine ⟨_, rfl, ?_⟩
  rw [c3_composite_last_patch_wins wadOverlay "OVERLAY" ⟨"OVERLAY", 0, 1, 1, 0, 2⟩
    _ (0, 0) rfl rfl (by decide) (by decide) (by decide) (by decide)]
  decide

/-! ## C6: the decoded picture buffer is transparent wherever no run wrote

The claim speaks of the pixels "covered by a run"; the following cover
functions compute, from the same lump bytes and with the same control flow
as the decoder, the list of buffer positions the RLE runs write. -/

/-- Positions written by one pixel run: rows `rowStart+i ..` of column
`col`, matching `writeRun`. -/
def runCover (w col rowStart : Nat) (i n : Nat) : List Nat :=
  match n with
  | 0 => []
  | n + 1 => ((rowStart + i) * w + col) :: runCover w col rowStart (i + 1) n

/-- Positions written while decoding one column, matching `decodeColumn`'s
control flow (same reads, same cursor movement). -/
def columnCover (lump : List Nat) (w col : Nat) (offset : Int)
    (fuel : Nat) : Option (List Nat) :=
  match fuel with
  | 0 => none
  | fuel + 1 =>
    match lumpGet lump offset with
    | none => none
    | some rowStart =>
      if rowStart = 255 then some []
      else
        match lumpGet lump (offset + 1) with
        | none => none
        | some numPixels =>
          (columnCover lump w col (offset + 3 + (numPixels : Int) + 1)
            fuel).map (fun rest => runCover w col rowStart 0 numPixels ++ rest)

/-- Positions written by all columns, matching `decodeColumns`. -/
def coverColumns (lump : List Nat) (w : Nat) (offsets : List Int)
    (col : Nat) (fuel : Nat) : Option (List Nat) :=
  match offsets with
  | [] => some []
  | offset :: rest =>
    match columnCover lump w col offset fuel with
    | none => none
    | some c =>
      (coverColumns lump w rest (col + 1) fuel).map (fun cs => c ++ cs)

theorem foldl_set_length (t : Nat) (f : Nat → Nat) :
    ∀ (ix : List Nat) (px : List Nat),
      (ix.foldl (fun px x => px.set (f x) t) px).length = px.length := by
  intro ix
  induction ix with
  | nil => intro px; rfl
  | cons a rest ih =>
    intro px
    rw [List.foldl_cons, ih, List.length_set]

theorem foldl_set_getElem? (t : Nat) (f : Nat → Nat) :
    ∀ (n : Nat) (px : List Nat) (j : Nat),
      ((List.range n).foldl (fun px x => px.set (f x) t) px)[j]? =
        if (∃ x, x < n ∧ f x = j) ∧ j < px.length then some t else px[j]? := by
  intro n
  induction n with
  | zero =>
    intro px j
    rw [if_neg]
    · rfl
    · rintro ⟨⟨x, hx, -⟩, -⟩
      omega
  | succ n ih =>
    intro px j
    rw [List.range_succ, List.foldl_append]
    simp only [List.foldl_cons, List.foldl_nil]
    by_cases hj : j = f n
    · subst hj
      by_cases hlen : f n < px.length
      · rw [List.getElem?_set_eq_of_lt t
          (by rw [foldl_set_length]; exact hlen),
          if_pos ⟨⟨n, by omega, rfl⟩, hlen⟩]
      · rw [if_neg (fun hcon => hlen hcon.2)]
        have h1 := ih px (f n)
        rw [if_neg (fun hcon => hlen hcon.2)] at h1
        have h2 : ∀ (l : List Nat), l.length = px.length →
            (l.set (f n) t)[f n]? = l[f n]? := by
          intro l hl
          have : l.set (f n) t = l := by
            apply List.set_eq_of_length_le
            omega
          rw [this]
        rw [h2 _ (foldl_set_length t f (List.range n) px), h1]
    · rw [List.getElem?_set_ne (fun hcon => hj hcon.symm), ih px j]
      by_cases hx : (∃ x, x < n ∧ f x = j) ∧ j < px.length
      · rw [if_pos hx, if_pos ⟨⟨hx.1.choose, by have := hx.1.choose_spec; omega,
          hx.1.choose_spec.2⟩, hx.2⟩]
      · rw [if_neg hx, if_neg ?_]
        rintro ⟨⟨x, hxn, hfx⟩, hjl⟩
        apply hx
        refine ⟨⟨x, ?_, hfx⟩, hjl⟩
        rcases Nat.lt_succ_iff_lt_or_eq.mp hxn with h | h
        · exact h
        · subst h
          exact absurd hfx.symm hj

theorem prefillRows_length (w t : Nat) :
    ∀ (h : Nat) (px : List Nat),
      ((List.range h).foldl (fun px y => (List.range w).foldl
        (fun px x => px.set (y * w + x) t) px) px).length = px.length := by
  intro h
  induction h with
  | zero => intro px; rfl
  | succ n ih =>
    intro px
    rw [List.range_succ, List.foldl_append]
    simp only [List.foldl_cons, List.foldl_nil]
    rw [foldl_set_length t (fun x => n * w + x), ih]

theorem prefillRows_getElem? (w t : Nat) :
    ∀ (h : Nat) (px : List Nat) (j : Nat),
      ((List.range h).foldl (fun px y => (List.range w).foldl
        (fun px x => px.set (y * w + x) t) px) px)[j]? =
        if (∃ y, y < h ∧ ∃ x, x < w ∧ y * w + x = j) ∧ j < px.length then
          some t
        else px[j]? := by
  intro h
  induction h with
  | zero =>
    intro px j
    rw [if_neg]
    · rfl
    · rintro ⟨⟨y, hy, -⟩, -⟩
      omega
  | succ n ih =>
    intro px j
    rw [List.range_succ, List.foldl_append]
    simp only [List.foldl_cons, List.foldl_nil]
    rw [foldl_set_getElem? t (fun x => n * w + x) w _ j,
      prefillRows_length w t n px, ih px j]
    by_cases hrow : (∃ x, x < w ∧ n * w + x = j) ∧ j < px.length
    · rw [if_pos hrow, if_pos ⟨⟨n, by omega, hrow.1⟩, hrow.2⟩]
    · rw [if_neg hrow]
      by_cases hold : (∃ y, y < n ∧ ∃ x, x < w ∧ y * w + x = j) ∧
          j < px.length
      · rw [if_pos hold, if_pos ⟨⟨hold.1.choose, by
          have := hold.1.choose_spec.1; omega, hold.1.choose_spec.2⟩, hold.2⟩]
      · rw [if_neg hold, if_neg ?_]
        rintro ⟨⟨y, hy, x, hx, hfx⟩, hjl⟩
        rcases Nat.lt_succ_iff_lt_or_eq.mp hy with hlt | heq
        · exact hold ⟨⟨y, hlt, x, hx, hfx⟩, hjl⟩
        · subst heq
          exact hrow ⟨⟨x, hx, hfx⟩, hjl⟩

theorem prefill_eq (w h t : Nat) :
    prefill w h t = List.replicate (w * h) t := by
  apply List.ext_getElem?
  intro j
  rw [prefill, prefillRows_getElem? w t h _ j, List.length_replicate,
    List.getElem?_replicate, List.getElem?_replicate]
  by_cases hj : j < w * h
  · have hw : 0 < w := by
      rcases Nat.eq_zero_or_pos w with h0 | h0
      · subst h0
        omega
      · exact h0
    have hex : (∃ y, y < h ∧ ∃ x, x < w ∧ y * w + x = j) ∧ j < w * h := by
      refine ⟨⟨j / w, ?_, j % w, Nat.mod_lt _ hw, ?_⟩, hj⟩
      · exact Nat.div_lt_of_lt_mul hj
      · rw [Nat.mul_comm (j / w) w]
        exact Nat.div_add_mod j w
    rw [if_pos hex, if_pos hj]
  · rw [if_neg hj, if_neg (fun hcon => hj hcon.2), if_neg hj]

theorem writeRun_spec (lump : List Nat) (w col rowStart : Nat) :
    ∀ (n i : Nat) (offset : Int) (pixels pixels' : List Nat) (offset' : Int),
      writeRun lump w col rowStart i n offset pixels =
          some (pixels', offset') →
      offset' = offset + (n : Int) ∧
        ∀ j, j ∉ runCover w col rowStart i n → pixels'[j]? = pixels[j]? := by
  intro n
  induction n with
  | zero =>
    intro i offset px px' off' h
    simp only [writeRun, Option.some.injEq, Prod.mk.injEq] at h
    obtain ⟨h1, h2⟩ := h
    subst h1
    subst h2
    exact ⟨by omega, fun j _ => rfl⟩
  | succ n ih =>
    intro i offset px px' off' h
    simp only [writeRun] at h
    cases hb : lumpGet lump offset with
    | none =>
      rw [hb] at h
      exact absurd h (by simp)
    | some b =>
      rw [hb] at h
      dsimp only at h
      cases hs : listSet px ((rowStart + i) * w + col) b with
      | none =>
        rw [hs] at h
        exact absurd h (by simp)
      | some px2 =>
        rw [hs] at h
        dsimp only at h
        obtain ⟨ho, hagree⟩ := ih (i + 1) (offset + 1) px2 px' off' h
        refine ⟨by rw [ho]; push_cast; ring, ?_⟩
        intro j hj
        rw [runCover] at hj
        simp only [List.mem_cons, not_or] at hj
        rw [hagree j hj.2]
        unfold listSet at hs
        by_cases hlen : (rowStart + i) * w + col < px.length
        · rw [if_pos hlen, Option.some.injEq] at hs
          subst hs
          exact List.getElem?_set_ne (fun hcon => hj.1 hcon.symm)
        · rw [if_neg hlen] at hs
          exact absurd hs (by simp)

theorem decodeColumn_spec (lump : List Nat) (w col : Nat) :
    ∀ (fuel : Nat) (offset : Int) (pixels pixels' : List Nat),
      decodeColumn lump w col offset pixels fuel = some pixels' →
      ∃ C, columnCover lump w col offset fuel = some C ∧
        ∀ j, j ∉ C → pixels'[j]? = pixels[j]? := by
  intro fuel
  induction fuel with
  | zero =>
    intro offset px px' h
    exact absurd h (by simp [decodeColumn])
  | succ fuel ih =>
    intro offset px px' h
    rw [decodeColumn] at h
    rw [columnCover]
    cases hb : lumpGet lump offset with
    | none =>
      rw [hb] at h
      exact absurd h (by simp)
    | some rowStart =>
      rw [hb] at h
      dsimp only at h
      dsimp only
      by_cases hrs : rowStart = 255
      · rw [if_pos hrs] at h
        rw [if_pos hrs]
        simp only [Option.some.injEq] at h
        subst h
        exact ⟨[], rfl, fun j _ => rfl⟩
      · rw [if_neg hrs] at h
        rw [if_neg hrs]
        cases hn : lumpGet lump (offset + 1) with
        | none =>
          rw [hn] at h
          exact absurd h (by simp)
        | some numPixels =>
          rw [hn] at h
          dsimp only at h
          dsimp only
          cases hw : writeRun lump w col rowStart 0 numPixels (offset + 3)
              px with
          | none =>
            rw [hw] at h
            exact absurd h (by simp)
          | some pr =>
            rw [hw] at h
            obtain ⟨px2, off2⟩ := pr
            dsimp only at h
            obtain ⟨ho, hagree1⟩ :=
              writeRun_spec lump w col rowStart numPixels 0 (offset + 3) px
                px2 off2 hw
            obtain ⟨C, hC, hagree2⟩ := ih (off2 + 1) px2 px' h
            have hoff : off2 + 1 = offset + 3 + (numPixels : Int) + 1 := by
              omega
            rw [hoff] at hC
            rw [hC]
            refine ⟨runCover w col rowStart 0 numPixels ++ C, rfl, ?_⟩
            intro j hj
            simp only [List.mem_append, not_or] at hj
            rw [hagree2 j hj.2, hagree1 j hj.1]

theorem decodeColumns_spec (lump : List Nat) (w : Nat) :
    ∀ (offsets : List Int) (col : Nat) (fuel : Nat)
        (pixels pixels' : List Nat),
      decodeColumns lump w offsets col pixels fuel = some pixels' →
      ∃ C, coverColumns lump w offsets col fuel = some C ∧
        ∀ j, j ∉ C → pixels'[j]? = pixels[j]? := by
  intro offsets
  induction offsets with
  | nil =>
    intro col fuel px px' h
    simp only [decodeColumns, Option.some.injEq] at h
    subst h
    exact ⟨[], rfl, fun j _ => rfl⟩
  | cons offset rest ih =>
    intro col fuel px px' h
    simp only [decodeColumns] at h
    rw [coverColumns]
    cases hd : decodeColumn lump w col offset px fuel with
    | none =>
      rw [hd] at h
      exact absurd h (by simp)
    | some px2 =>
      rw [hd] at h
      dsimp only at h
      obtain ⟨C1, hC1, hagree1⟩ := decodeColumn_spec lump w col fuel offset
        px px2 hd
      obtain ⟨C2, hC2, hagree2⟩ := ih (col + 1) fuel px2 px' h
      rw [hC1, hC2]
      refine ⟨C1 ++ C2, rfl, ?_⟩
      intro j hj
      simp only [List.mem_append, not_or] at hj
      rw [hagree2 j hj.2, hagree1 j hj.1]

theorem decodeColumn_zeroRun (lump : List Nat) (w col : Nat) (offset : Int)
    (pixels : List Nat) (fuel : Nat) (h : lumpGet lump offset = some 255) :
    decodeColumn lump w col offset pixels (fuel + 1) = some pixels := by
  rw [decodeColumn, h]
  simp

theorem decodeColumns_zeroRun (lump : List Nat) (w : Nat) :
    ∀ (offsets : List Int) (col : Nat) (pixels : List Nat) (fuel : Nat),
      (∀ o ∈ offsets, lumpGet lump o = some 255) →
      decodeColumns lump w offsets col pixels (fuel + 1) = some pixels := by
  intro offsets
  induction offsets with
  | nil =>
    intro col px fuel _
    rfl
  | cons offset rest ih =>
    intro col px fuel hall
    rw [decodeColumns,
      decodeColumn_zeroRun lump w col offset px fuel
        (hall offset (by simp))]
    exact ih (col + 1) px fuel (fun o ho => hall o (by simp [ho]))

set_option maxRecDepth 4000 in
/-- C6: the destination pixel buffer of a decoded picture, of length
width*height, is pre-filled entirely with the transparent sentinel before
any RLE run is applied (the prefill loop produces exactly the all-sentinel
buffer); consequently every pixel position not covered by a run still
holds the sentinel in the decoded image; and in particular a picture with
zero RLE runs — every column offset pointing at the end-of-column byte
255 — decodes to a buffer in which every pixel equals the sentinel. -/
theorem c6_picture_prefill_transparent :
    (∀ (w h t : Nat), prefill w h t = List.replicate (w * h) t) ∧
    (∀ (t : Nat) (lump : List Nat) (fuel : Nat) (img : Image) (C : List Nat),
      decodeOnePatch t lump fuel = .ok img →
      coverColumns lump img.width.toNat (readOffsets lump img.width.toNat) 0
          fuel = some C →
      ∀ j, j < img.width.toNat * img.height.toNat → j ∉ C →
        img.pixels[j]? = some t) ∧
    (∀ (t : Nat) (lump : List Nat) (fuel : Nat),
      ¬ lump.length < 8 →
      ¬ (int16ofBytes (lump.getD 0 0) (lump.getD 1 0) > 4096 ∨
         int16ofBytes (lump.getD 2 0) (lump.getD 3 0) > 4096) →
      ¬ int16ofBytes (lump.getD 0 0) (lump.getD 1 0) < 0 →
      ¬ lump.length <
          8 + 4 * (int16ofBytes (lump.getD 0 0) (lump.getD 1 0)).toNat →
      ¬ int16ofBytes (lump.getD 0 0) (lump.getD 1 0) *
          int16ofBytes (lump.getD 2 0) (lump.getD 3 0) < 0 →
      (∀ o ∈ readOffsets lump
          (int16ofBytes (lump.getD 0 0) (lump.getD 1 0)).toNat,
        lumpGet lump o = some 255) →
      decodeOnePatch t lump (fuel + 1) =
        .ok ⟨int16ofBytes (lump.getD 0 0) (lump.getD 1 0),
          int16ofBytes (lump.getD 2 0) (lump.getD 3 0),
          List.replicate
            ((int16ofBytes (lump.getD 0 0) (lump.getD 1 0)).toNat *
              (int16ofBytes (lump.getD 2 0) (lump.getD 3 0)).toNat) t⟩) := by
  refine ⟨prefill_eq, ?_, ?_⟩
  · intro t lump fuel img C hok hcov j hj hnc
    unfold decodeOnePatch at hok
    split at hok
    · exact PatchResult.noConfusion hok
    · dsimp only at hok
      split at hok
      · exact PatchResult.noConfusion hok
      · split at hok
        · exact PatchResult.noConfusion hok
        · split at hok
          · exact PatchResult.noConfusion hok
          · split at hok
            · exact PatchResult.noConfusion hok
            · cases hd : decodeColumns lump
                  (int16ofBytes (lump.getD 0 0) (lump.getD 1 0)).toNat
                  (readOffsets lump
                    (int16ofBytes (lump.getD 0 0) (lump.getD 1 0)).toNat) 0
                  (prefill
                    (int16ofBytes (lump.getD 0 0) (lump.getD 1 0)).toNat
                    (int16ofBytes (lump.getD 2 0) (lump.getD 3 0)).toNat t)
                  fuel with
              | none =>
                rw [hd] at hok
                exact PatchResult.noConfusion hok
              | some px =>
                rw [hd] at hok
                dsimp only at hok
                rw [PatchResult.ok.injEq] at hok
                subst hok
                dsimp only at hcov hj hnc ⊢
                obtain ⟨C', hC', hagree⟩ := decodeColumns_spec lump
                  (int16ofBytes (lump.getD 0 0) (lump.getD 1 0)).toNat
                  (readOffsets lump
                    (int16ofBytes (lump.getD 0 0) (lump.getD 1 0)).toNat) 0
                  fuel _ px hd
                rw [hC', Option.some.injEq] at hcov
                subst hcov
                rw [hagree j hnc, prefill_eq, List.getElem?_replicate,
                  if_pos hj]
  · intro t lump fuel hlen hbig hwneg hlen2 hsz hoffs
    unfold decodeOnePatch
    rw [if_neg hlen]
    dsimp only
    rw [if_neg hbig, if_neg hwneg, if_neg hlen2, if_neg hsz, prefill_eq,
      decodeColumns_zeroRun lump
        (int16ofBytes (lump.getD 0 0) (lump.getD 1 0)).toNat
        (readOffsets lump
          (int16ofBytes (lump.getD 0 0) (lump.getD 1 0)).toNat) 0 _ fuel
        hoffs]

/-- A 2x2 zero-run picture lump: both column offsets point at the
end-of-column byte 255. -/
def pictureZeroRun : List Nat :=
  [2, 0, 2, 0, 0, 0, 0, 0, 16, 0, 0, 0, 16, 0, 0, 0, 255]

/-- A 2x2 picture lump whose first column has a single one-pixel run
(value 7 at row 0) and whose second column is empty. -/
def pictureOneRun : List Nat :=
  [2, 0, 2, 0, 0, 0, 0, 0, 16, 0, 0, 0, 22, 0, 0, 0, 0, 1, 0, 7, 0, 255, 255]

/-- C6 witness: the prefill equation at 2x3; the run-uncovered pixel 1 of
the one-run picture stays transparent; the zero-run picture decodes to the
all-sentinel buffer. -/
theorem c6_picture_prefill_transparent_witness :
    prefill 2 3 255 = List.replicate 6 255 ∧
    ([7, 255, 255, 255] : List Nat)[1]? = some 255 ∧
    decodeOnePatch 255 pictureZeroRun 1 =
      .ok ⟨2, 2, List.replicate 4 255⟩ :=
  ⟨c6_picture_prefill_transparent.1 2 3 255,
   c6_picture_prefill_transparent.2.1 255 pictureOneRun 2
     ⟨2, 2, [7, 255, 255, 255]⟩ [0] (by decide) (by decide) 1 (by decide)
     (by decide),
   c6_picture_prefill_transparent.2.2 255 pictureZeroRun 0 (by decide)
     (by decide) (by decide) (by decide) (by decide) (by decide)⟩

end Godoom
